import Mathlib

/-!
Shallow embedding of the `lexi` word-list library.

Rust strings are modelled as their sequences of Unicode scalar values
(`List Char`); `String::len` (a byte count in Rust) is modelled by summing
the UTF-8 size of each scalar. `Vec<String>` is `List (List Char)`,
`Vec::retain` is `List.filter` (both keep relative order), and
`Vec::contains` is list membership. Line splitting by `BufRead::lines`
is I/O, so the parsing functions take their inputs already split into
lines; on such inputs no `Result` error path of the source is reachable,
so they return the `WordList` directly.
-/

namespace Lexi

/-- A Rust `String`, as its list of Unicode scalar values. -/
abbrev Word := List Char

/-- Rust `String::len`: the length in bytes of the UTF-8 encoding. -/
def byteLen (w : Word) : Nat := (w.map Char.utf8Size).sum

/-- A word is lowercase when lowercasing each of its characters changes nothing. -/
def isLowercaseWord (w : Word) : Bool := w.all (fun c => c.toLower == c)

/-- `struct VecLexicon { words: Vec<String> }` (src/veclexicon.rs). -/
structure VecLexicon where
  words : List Word
deriving DecidableEq

/-- `VecLexicon::new`: `VecLexicon{words}` — stores the vector as given. -/
def VecLexicon.new (words : List Word) : VecLexicon :=
  ⟨words⟩

/-- `contains`: `self.words.contains(&String::from(word))`. -/
def VecLexicon.contains (lex : VecLexicon) (word : Word) : Bool :=
  decide (word ∈ lex.words)

/-- `with_letter`: `self.words.retain(|word| word.contains(letter))`. -/
def VecLexicon.with_letter (lex : VecLexicon) (letter : Char) : VecLexicon :=
  ⟨lex.words.filter (fun word => decide (letter ∈ word))⟩

/-- `without_letter`: `self.words.retain(|word| !word.contains(letter))`. -/
def VecLexicon.without_letter (lex : VecLexicon) (letter : Char) : VecLexicon :=
  ⟨lex.words.filter (fun word => !decide (letter ∈ word))⟩

/-- `only_using_letters`: collects the given letters into a string and keeps
the words all of whose characters occur in that string. -/
def VecLexicon.only_using_letters (lex : VecLexicon) (letters : List Char) : VecLexicon :=
  ⟨lex.words.filter (fun word => word.all (fun l => decide (l ∈ letters)))⟩

/-- `with_exact_length`: `self.words.retain(|word| word.len() == length)`. -/
def VecLexicon.with_exact_length (lex : VecLexicon) (length : Nat) : VecLexicon :=
  ⟨lex.words.filter (fun word => byteLen word == length)⟩

/-- `with_more_length`: `self.words.retain(|word| word.len() > length)`. -/
def VecLexicon.with_more_length (lex : VecLexicon) (length : Nat) : VecLexicon :=
  ⟨lex.words.filter (fun word => length < byteLen word)⟩

/-- `with_less_length`: `self.words.retain(|word| word.len() < length)`. -/
def VecLexicon.with_less_length (lex : VecLexicon) (length : Nat) : VecLexicon :=
  ⟨lex.words.filter (fun word => byteLen word < length)⟩

/-- The `Lexicon` trait default `with_letters`: one `with_letter` call per
letter, in iteration order (src/lexicon.rs). -/
def VecLexicon.with_letters (lex : VecLexicon) (letters : List Char) : VecLexicon :=
  letters.foldl VecLexicon.with_letter lex

/-- The `Lexicon` trait default `without_letters`: one `without_letter` call
per letter, in iteration order (src/lexicon.rs). -/
def VecLexicon.without_letters (lex : VecLexicon) (letters : List Char) : VecLexicon :=
  letters.foldl VecLexicon.without_letter lex

/-- `const NEOLOGISM_ANNOT: char = '!'` (src/wordlist.rs). -/
def NEOLOGISM_ANNOT : Char := '!'

/-- `const UNCOUNTABLE_PLURAL_ANNOT: char = '%'` (src/wordlist.rs). -/
def UNCOUNTABLE_PLURAL_ANNOT : Char := '%'

/-- `enum Flag` (src/wordlist.rs). -/
inductive Flag where
  | UncountablePlurals
  | Swears
  | Neologisms
deriving DecidableEq

/-- `struct WordList` (src/wordlist.rs). -/
structure WordList where
  normal_words : List Word
  uncountable_plurals : List Word
  swears : List Word
  neologisms : List Word
deriving DecidableEq

/-- `WordList::custom_list`: starts from the normal words and appends each
optional bucket whose flag is present, in the order uncountable plurals,
swears, neologisms. -/
def WordList.custom_list (wl : WordList) (flags : List Flag) : List Word :=
  let list1 := wl.normal_words
  let list2 := if Flag.UncountablePlurals ∈ flags then list1 ++ wl.uncountable_plurals else list1
  let list3 := if Flag.Swears ∈ flags then list2 ++ wl.swears else list2
  if Flag.Neologisms ∈ flags then list3 ++ wl.neologisms else list3

/-- `WordList::default_list`: `self.custom_list(vec![Flag::Neologisms])`. -/
def WordList.default_list (wl : WordList) : List Word :=
  wl.custom_list [Flag.Neologisms]

/-- The per-line marker logic of `parse_strings` / `parse_list`: if the line
ends with `NEOLOGISM_ANNOT`, truncate that marker off and tentatively classify
as `Neologisms`; else if it ends with `UNCOUNTABLE_PLURAL_ANNOT`, truncate and
tentatively classify as `UncountablePlurals`; else leave the line as is
with no classification. Both markers are one byte in UTF-8, so the byte
truncation removes exactly the last character. -/
def classifyLine (line : Word) : Word × Option Flag :=
  if line.getLast? = some NEOLOGISM_ANNOT then
    (line.dropLast, some Flag.Neologisms)
  else if line.getLast? = some UNCOUNTABLE_PLURAL_ANNOT then
    (line.dropLast, some Flag.UncountablePlurals)
  else
    (line, none)

/-- The main loop of `parse_strings` / `parse_list`: for each main line,
strip a marker per `classifyLine`; a stripped line found in the denylist is
pushed to no bucket, otherwise it goes to the bucket of its tentative
classification (`Some(Flag::Swears) | None` both push to the normal words).
Returns `(normal_words, uncountable_plurals, neologisms)`. -/
def parseGo (swears : List Word) : List Word → List Word × List Word × List Word
  | [] => ([], [], [])
  | line :: rest =>
    let acc := parseGo swears rest
    let line_str := (classifyLine line).1
    if line_str ∈ swears then acc
    else
      match (classifyLine line).2 with
      | some Flag.UncountablePlurals => (acc.1, line_str :: acc.2.1, acc.2.2)
      | some Flag.Neologisms => (acc.1, acc.2.1, line_str :: acc.2.2)
      | _ => (line_str :: acc.1, acc.2.1, acc.2.2)

/-- `parse_strings` (src/wordlist.rs), over inputs already split into lines:
the denylist lines become the `swears` bucket verbatim, and the main lines
are classified by `parseGo`. -/
def parse_strings (main_lines : List Word) (swears_lines : List Word) : WordList :=
  let buckets := parseGo swears_lines main_lines
  ⟨buckets.1, buckets.2.1, swears_lines, buckets.2.2⟩

/-! Helper lemmas shared by the claim theorems. -/

lemma VecLexicon.eq_of_words_eq : ∀ {l1 l2 : VecLexicon}, l1.words = l2.words → l1 = l2
  | ⟨_⟩, ⟨_⟩, rfl => rfl

lemma filter_shrinks (l : List Word) (p : Word → Bool) :
    l.filter p ⊆ l ∧ (l.filter p).length ≤ l.length :=
  ⟨(List.filter_sublist l).subset, (List.filter_sublist l).length_le⟩

lemma filter_comm (l : List Word) (p q : Word → Bool) :
    (l.filter p).filter q = (l.filter q).filter p := by
  rw [List.filter_filter, List.filter_filter]
  exact List.filter_congr (fun w _ => by rw [Bool.and_comm])

lemma filter_idem (l : List Word) (p : Word → Bool) :
    (l.filter p).filter p = l.filter p := by
  rw [List.filter_filter]
  exact List.filter_congr (fun w _ => Bool.and_self _)

lemma all_perm {α : Type} (p : α → Bool) {l1 l2 : List α} (h : List.Perm l1 l2) :
    l1.all p = l2.all p := by
  induction h with
  | nil => rfl
  | cons a h ih => simp [List.all_cons, ih]
  | swap a b l => simp [List.all_cons, Bool.and_left_comm]
  | trans h1 h2 ih1 ih2 => rw [ih1, ih2]

/-- `with_letters` is the chained filter keeping words that contain every
letter of the list. -/
lemma with_letters_words : ∀ (letters : List Char) (lex : VecLexicon),
    (lex.with_letters letters).words
      = lex.words.filter (fun w => letters.all (fun c => decide (c ∈ w)))
  | [], lex => by
    simp [VecLexicon.with_letters, List.all_nil, List.filter_true]
  | c :: cs, lex => by
    rw [show (lex.with_letters (c :: cs)) = ((lex.with_letter c).with_letters cs) from rfl,
        with_letters_words cs (lex.with_letter c)]
    show (lex.words.filter _).filter _ = _
    rw [List.filter_filter]
    exact List.filter_congr (fun w _ => by rw [List.all_cons, Bool.and_comm])

/-- `without_letters` is the chained filter keeping words that contain none
of the letters of the list. -/
lemma without_letters_words : ∀ (letters : List Char) (lex : VecLexicon),
    (lex.without_letters letters).words
      = lex.words.filter (fun w => letters.all (fun c => !decide (c ∈ w)))
  | [], lex => by
    simp [VecLexicon.without_letters, List.all_nil, List.filter_true]
  | c :: cs, lex => by
    rw [show (lex.without_letters (c :: cs)) = ((lex.without_letter c).without_letters cs) from rfl,
        without_letters_words cs (lex.without_letter c)]
    show (lex.words.filter _).filter _ = _
    rw [List.filter_filter]
    exact List.filter_congr (fun w _ => by rw [List.all_cons, Bool.and_comm])

/-- A word of the denylist is pushed into none of the three buckets built by
the main parsing loop. -/
lemma parseGo_not_mem (swears : List Word) (w : Word) (hw : w ∈ swears) :
    ∀ main : List Word,
      w ∉ (parseGo swears main).1 ∧ w ∉ (parseGo swears main).2.1 ∧
      w ∉ (parseGo swears main).2.2
  | [] => by simp [parseGo]
  | line :: rest => by
    have ih := parseGo_not_mem swears w hw rest
    simp only [parseGo]
    split
    · exact ih
    · next hnotsw =>
      have hne : (classifyLine line).1 ≠ w := fun he => hnotsw (he ▸ hw)
      split <;>
        simp_all [List.mem_cons] <;> exact fun he => hne he.symm

/-! Claim theorems. -/

/-- Claim C1: the spec (and the source's own doc comments, which say the
words are stored "in lowercase" and "converted to lowercase internally")
requires every stored word to be lowercase, but `VecLexicon::new` stores its
input verbatim with no case normalization: on the input list `["Apple"]` the
resulting storage holds exactly `"Apple"`, which is not lowercase. -/
theorem C1_new_stores_nonlowercase_word :
    (VecLexicon.new [String.toList "Apple"]).words = [String.toList "Apple"] ∧
    isLowercaseWord (String.toList "Apple") = false := by
  decide

/-- Claim C2, counterexample: with main source line `"apple"` and denylist
line `"zebra"`, the swear bucket produced by `parse_strings` is `["zebra"]`,
yet the only marker-stripped line of the main source is `"apple"`, and
`"zebra" ≠ "apple"` — so the swear bucket is not made of annotation-stripped
main-source lines present in the denylist (that set is empty here). -/
theorem C2_swears_counterexample :
    (parse_strings [String.toList "apple"] [String.toList "zebra"]).swears
      = [String.toList "zebra"] ∧
    [String.toList "apple"].map (fun l => (classifyLine l).1)
      = [String.toList "apple"] ∧
    String.toList "zebra" ≠ String.toList "apple" := by
  decide

/-- Claim C2, amended: after parse, the swear bucket of the `WordList` is the
denylist itself, verbatim and in order — every denylist line, whether or not
it occurs among the annotation-stripped lines of the main source; main-source
lines matching the denylist are merely kept out of the other buckets. -/
theorem C2_swears_eq_denylist (main_lines swears_lines : List Word) :
    (parse_strings main_lines swears_lines).swears = swears_lines := rfl

/-- Claim C3: a word of the denylist is placed in none of the normal,
uncountable-plural, or neologism buckets, whatever marker its line carried;
in particular, for the main line `"fuck!"` with denylist `["fuck"]`,
`"fuck"` is absent from `default_list`. -/
theorem C3_denylist_precedence (main denylist : List Word) (w : Word)
    (hw : w ∈ denylist) :
    (w ∉ (parse_strings main denylist).normal_words ∧
     w ∉ (parse_strings main denylist).uncountable_plurals ∧
     w ∉ (parse_strings main denylist).neologisms) ∧
    String.toList "fuck"
      ∉ (parse_strings [String.toList "fuck!"] [String.toList "fuck"]).default_list :=
  ⟨parseGo_not_mem denylist w hw main, by decide⟩

/-- Witness for C3 at main `["fuck!"]`, denylist `["fuck"]`, word `"fuck"`. -/
theorem C3_denylist_precedence_witness :
    (String.toList "fuck"
        ∉ (parse_strings [String.toList "fuck!"] [String.toList "fuck"]).normal_words ∧
     String.toList "fuck"
        ∉ (parse_strings [String.toList "fuck!"] [String.toList "fuck"]).uncountable_plurals ∧
     String.toList "fuck"
        ∉ (parse_strings [String.toList "fuck!"] [String.toList "fuck"]).neologisms) ∧
    String.toList "fuck"
      ∉ (parse_strings [String.toList "fuck!"] [String.toList "fuck"]).default_list :=
  C3_denylist_precedence [String.toList "fuck!"] [String.toList "fuck"]
    (String.toList "fuck") (by decide)

/-- Claim C4: `default_list` equals `custom_list` with the single flag
`Neologisms`, and on the three-line main source `"apple"`, `"acnes%"`,
`"blogger!"` with an empty denylist, `default_list` yields
`["apple","blogger"]` while `custom_list [UncountablePlurals]` yields
`["apple","acnes"]`. -/
theorem C4_default_list_eq_select_neologisms (wl : WordList) :
    wl.default_list = wl.custom_list [Flag.Neologisms] ∧
    (parse_strings (["apple", "acnes%", "blogger!"].map String.toList) []).default_list
      = [String.toList "apple", String.toList "blogger"] ∧
    (parse_strings (["apple", "acnes%", "blogger!"].map String.toList)
        []).custom_list [Flag.UncountablePlurals]
      = [String.toList "apple", String.toList "acnes"] :=
  ⟨rfl, by decide, by decide⟩

/-- Claim C5: `only_using_letters letters` keeps a word iff it was present
and every one of its characters occurs in `letters`; duplicate letters are
inert (deduplicating the letter list gives the same result); and on the words
`"apple"`, `"pea"`, `"apples"` with letters `a,p,l,e` exactly `"apple"` and
`"pea"` survive. -/
theorem C5_only_using_letters_membership (lex : VecLexicon) (letters : List Char)
    (w : Word) :
    (w ∈ (lex.only_using_letters letters).words ↔
      w ∈ lex.words ∧ ∀ c ∈ w, c ∈ letters) ∧
    lex.only_using_letters letters.dedup = lex.only_using_letters letters ∧
    ((VecLexicon.new (["apple", "pea", "apples"].map String.toList)).only_using_letters
        ['a', 'p', 'l', 'e']).words
      = [String.toList "apple", String.toList "pea"] := by
  refine ⟨?_, ?_, by decide⟩
  · simp [VecLexicon.only_using_letters, List.mem_filter, List.all_eq_true]
  · apply VecLexicon.eq_of_words_eq
    show lex.words.filter _ = lex.words.filter _
    exact List.filter_congr fun w _ => by
      simp only [List.all_eq_true, decide_eq_true_eq, List.mem_dedup]

/-- Claim C6: each of the eight filtering operations is monotonic: the
post-call word list is a subset of the pre-call list and no longer than it. -/
theorem C6_filters_monotonic (lex : VecLexicon) (c : Char) (letters : List Char)
    (n : Nat) :
    ((lex.with_letter c).words ⊆ lex.words ∧
      (lex.with_letter c).words.length ≤ lex.words.length) ∧
    ((lex.without_letter c).words ⊆ lex.words ∧
      (lex.without_letter c).words.length ≤ lex.words.length) ∧
    ((lex.only_using_letters letters).words ⊆ lex.words ∧
      (lex.only_using_letters letters).words.length ≤ lex.words.length) ∧
    ((lex.with_letters letters).words ⊆ lex.words ∧
      (lex.with_letters letters).words.length ≤ lex.words.length) ∧
    ((lex.without_letters letters).words ⊆ lex.words ∧
      (lex.without_letters letters).words.length ≤ lex.words.length) ∧
    ((lex.with_exact_length n).words ⊆ lex.words ∧
      (lex.with_exact_length n).words.length ≤ lex.words.length) ∧
    ((lex.with_more_length n).words ⊆ lex.words ∧
      (lex.with_more_length n).words.length ≤ lex.words.length) ∧
    ((lex.with_less_length n).words ⊆ lex.words ∧
      (lex.with_less_length n).words.length ≤ lex.words.length) := by
  refine ⟨?_, ?_, ?_, ?_, ?_, ?_, ?_, ?_⟩
  · exact filter_shrinks lex.words _
  · exact filter_shrinks lex.words _
  · exact filter_shrinks lex.words _
  · rw [show (lex.with_letters letters).words = _ from with_letters_words letters lex]
    exact filter_shrinks lex.words _
  · rw [show (lex.without_letters letters).words = _ from without_letters_words letters lex]
    exact filter_shrinks lex.words _
  · exact filter_shrinks lex.words _
  · exact filter_shrinks lex.words _
  · exact filter_shrinks lex.words _

/-- Claim C7: `with_letter` filters commute — filtering by letter `a` then
`b` equals filtering by `b` then `a` — and consequently `with_letters` gives
the same result on any reordering (permutation) of its letter list. -/
theorem C7_with_letter_comm (lex : VecLexicon) (a b : Char) (ls ls2 : List Char)
    (hperm : List.Perm ls ls2) :
    (lex.with_letter a).with_letter b = (lex.with_letter b).with_letter a ∧
    lex.with_letters ls = lex.with_letters ls2 := by
  constructor
  · apply VecLexicon.eq_of_words_eq
    show (lex.words.filter _).filter _ = (lex.words.filter _).filter _
    exact filter_comm lex.words _ _
  · apply VecLexicon.eq_of_words_eq
    rw [with_letters_words, with_letters_words]
    exact List.filter_congr fun w _ => all_perm (fun c => decide (c ∈ w)) hperm

/-- Witness for C7 on the lexicon `["ab"]` with letters `a`, `b` and the
letter lists `[a,b]` and `[b,a]`. -/
theorem C7_with_letter_comm_witness :
    ((VecLexicon.new [String.toList "ab"]).with_letter 'a').with_letter 'b'
      = ((VecLexicon.new [String.toList "ab"]).with_letter 'b').with_letter 'a' ∧
    (VecLexicon.new [String.toList "ab"]).with_letters ['a', 'b']
      = (VecLexicon.new [String.toList "ab"]).with_letters ['b', 'a'] :=
  C7_with_letter_comm (VecLexicon.new [String.toList "ab"]) 'a' 'b'
    ['a', 'b'] ['b', 'a'] (List.Perm.swap 'b' 'a' [])

/-- Claim C8: each of the eight filtering operations is idempotent: applying
it twice with the same argument equals applying it once. -/
theorem C8_filters_idempotent (lex : VecLexicon) (c : Char) (letters : List Char)
    (n : Nat) :
    (lex.with_letter c).with_letter c = lex.with_letter c ∧
    (lex.without_letter c).without_letter c = lex.without_letter c ∧
    (lex.only_using_letters letters).only_using_letters letters
      = lex.only_using_letters letters ∧
    (lex.with_letters letters).with_letters letters = lex.with_letters letters ∧
    (lex.without_letters letters).without_letters letters
      = lex.without_letters letters ∧
    (lex.with_exact_length n).with_exact_length n = lex.with_exact_length n ∧
    (lex.with_more_length n).with_more_length n = lex.with_more_length n ∧
    (lex.with_less_length n).with_less_length n = lex.with_less_length n := by
  refine ⟨?_, ?_, ?_, ?_, ?_, ?_, ?_, ?_⟩
  · exact VecLexicon.eq_of_words_eq (filter_idem lex.words _)
  · exact VecLexicon.eq_of_words_eq (filter_idem lex.words _)
  · exact VecLexicon.eq_of_words_eq (filter_idem lex.words _)
  · apply VecLexicon.eq_of_words_eq
    rw [with_letters_words, with_letters_words]
    exact filter_idem lex.words _
  · apply VecLexicon.eq_of_words_eq
    rw [without_letters_words, without_letters_words]
    exact filter_idem lex.words _
  · exact VecLexicon.eq_of_words_eq (filter_idem lex.words _)
  · exact VecLexicon.eq_of_words_eq (filter_idem lex.words _)
  · exact VecLexicon.eq_of_words_eq (filter_idem lex.words _)

/-- Claim C9: the three length filters keep exactly the words whose byte
length is `= n`, `> n`, `< n` respectively, and on the word set
`{"a","bb","ccc"}` they yield `{"bb"}`, `{"bb","ccc"}`, `{"a","bb"}` for
the arguments 2, 1, 3. -/
theorem C9_length_filters (lex : VecLexicon) (n : Nat) (w : Word) :
    (w ∈ (lex.with_exact_length n).words ↔ w ∈ lex.words ∧ byteLen w = n) ∧
    (w ∈ (lex.with_more_length n).words ↔ w ∈ lex.words ∧ n < byteLen w) ∧
    (w ∈ (lex.with_less_length n).words ↔ w ∈ lex.words ∧ byteLen w < n) ∧
    ((VecLexicon.new (["a", "bb", "ccc"].map String.toList)).with_exact_length 2).words
      = [String.toList "bb"] ∧
    ((VecLexicon.new (["a", "bb", "ccc"].map String.toList)).with_more_length 1).words
      = [String.toList "bb", String.toList "ccc"] ∧
    ((VecLexicon.new (["a", "bb", "ccc"].map String.toList)).with_less_length 3).words
      = [String.toList "a", String.toList "bb"] := by
  refine ⟨?_, ?_, ?_, by decide, by decide, by decide⟩
  · simp [VecLexicon.with_exact_length, List.mem_filter]
  · simp [VecLexicon.with_more_length, List.mem_filter]
  · simp [VecLexicon.with_less_length, List.mem_filter]

/-- Claim C10: parsing strips at most one trailing marker, checking `!`
before `%`: a line `w ++ "%!"` is classified as a neologism stored as
`w ++ "%"`, and a line `w ++ "!%"` as an uncountable plural stored as
`w ++ "!"`; accordingly `parse_strings` on the single line `"ab%!"` (resp.
`"ab!%"`) with an empty denylist puts `"ab%"` in the neologism bucket
(resp. `"ab!"` in the uncountable-plural bucket). -/
theorem C10_marker_precedence (w : Word) :
    classifyLine (w ++ ['%', '!']) = (w ++ ['%'], some Flag.Neologisms) ∧
    classifyLine (w ++ ['!', '%']) = (w ++ ['!'], some Flag.UncountablePlurals) ∧
    parse_strings [String.toList "ab%!"] []
      = ⟨[], [], [], [String.toList "ab%"]⟩ ∧
    parse_strings [String.toList "ab!%"] []
      = ⟨[], [String.toList "ab!"], [], []⟩ := by
  have h1 : w ++ ['%', '!'] = (w ++ ['%']) ++ ['!'] := by simp
  have h2 : w ++ ['!', '%'] = (w ++ ['!']) ++ ['%'] := by simp
  refine ⟨?_, ?_, by decide, by decide⟩
  · rw [h1]
    simp [classifyLine, NEOLOGISM_ANNOT, List.getLast?_concat, List.dropLast_concat]
  · rw [h2]
    simp [classifyLine, NEOLOGISM_ANNOT, UNCOUNTABLE_PLURAL_ANNOT,
      List.getLast?_concat, List.dropLast_concat]

end Lexi
